import Mathlib

/-!
Verification model of the ROI statistics engine in
`src/extract_roi_stats.py` (functions `label_name_from_id`,
`discover_templates`, `compute_stats_fast`, `parse_roi_ids`, and the
row-assembly / per-pair loop of `main`).

Modelling conventions:
* A voxel value (NumPy float) is modelled by `FVal`: either a finite
  value carried as an exact rational, or one of the non-finite floats
  (`nan`, `inf`, `ninf`).  Arithmetic on surviving (finite) values is
  done in `ℚ`; floating-point rounding/overflow is out of scope, so the
  derived means/variances are always finite in the model (`isFiniteQ`).
* 3-D arrays enter `compute_stats_fast` only through `ravel()`, so a
  volume is modelled as the flattened list of voxels; the label volume
  and value volume are zipped into a single `List (ℕ × FVal)`.
* NumPy's stable mergesort-by-label followed by segmenting (lines
  122-129 of the source) makes each per-label run equal to the
  subsequence of surviving voxels with that label in original order,
  which is exactly `valsOf`.
* The per-label `Dict` results are modelled as association lists keyed
  by label, built in `np.unique` (sorted) order.
-/

/-- A NumPy floating-point scalar: finite (exact rational) or one of the
non-finite values. -/
inductive FVal where
  | nan : FVal
  | inf : FVal
  | ninf : FVal
  | fin (q : ℚ) : FVal
deriving DecidableEq

/-- `np.isfinite` (line 99 of the source). -/
def FVal.isFinite : FVal → Bool
  | .fin _ => true
  | _ => false

/-- IEEE comparison `v >= 0` (line 101): NaN compares false. -/
def FVal.ge0 : FVal → Bool
  | .fin q => decide (0 ≤ q)
  | .inf => true
  | _ => false

/-- The voxel-validity mask of lines 99-101:
`isfinite(v) & (include_negative | v >= 0)`. -/
def keepVoxel (include_negative : Bool) (v : FVal) : Bool :=
  v.isFinite && (include_negative || v.ge0)

/-- Lines 103-104: `labels[mask]`, `values[mask]` — the surviving
(label, value) pairs, values now known finite. -/
def survivors (include_negative : Bool) (voxels : List (ℕ × FVal)) : List (ℕ × ℚ) :=
  (voxels.filter (fun p => keepVoxel include_negative p.2)).filterMap
    (fun p => match p.2 with
      | .fin q => some (p.1, q)
      | _ => none)

/-- `np.unique` over a list of labels: sorted list of the distinct
elements. -/
def uniqueSorted (l : List ℕ) : List ℕ :=
  List.insertionSort (· ≤ ·) l.dedup

/-- The run of surviving values carrying label `l` (in original voxel
order, as produced by the stable sort + segmentation of lines 122-129). -/
def valsOf (surv : List (ℕ × ℚ)) (l : ℕ) : List ℚ :=
  (surv.filter (fun p => p.1 == l)).map Prod.snd

/-- `counts[l]` of line 111 (surviving voxel count for label `l`). -/
def roiCount (surv : List (ℕ × ℚ)) (l : ℕ) : ℕ :=
  (valsOf surv l).length

/-- `sums[l]` of line 112. -/
def roiSum (surv : List (ℕ × ℚ)) (l : ℕ) : ℚ :=
  (valsOf surv l).sum

/-- `sums2[l]` of line 113. -/
def roiSumSq (surv : List (ℕ × ℚ)) (l : ℕ) : ℚ :=
  ((valsOf surv l).map (fun x => x * x)).sum

/-- `means[l] = sums[l] / counts[l]` (line 116). -/
def roiMean (surv : List (ℕ × ℚ)) (l : ℕ) : ℚ :=
  roiSum surv l / (roiCount surv l : ℚ)

/-- `vars_[l] = max(sums2/counts - means*means, 0)` (lines 117-118).
The code stores `std = sqrt(vars_)`; the model keeps the exact variance
and treats the standard deviation as `Real.sqrt` of it. -/
def roiVar (surv : List (ℕ × ℚ)) (l : ℕ) : ℚ :=
  max (roiSumSq surv l / (roiCount surv l : ℚ) - roiMean surv l * roiMean surv l) 0

/-- In the exact-rational model every derived quantity is finite; in the
float code `np.isfinite` can fail only through overflow, which the model
does not represent. -/
def isFiniteQ (_ : ℚ) : Bool := true

/-- Linear-interpolation positional lookup: value at fractional index
`h` of the sorted list `v` (the semantics of `np.quantile(..,
method="linear")` at `h = q * (n - 1)`). -/
def interpFrac (v : List ℚ) (h : ℚ) : ℚ :=
  v.getD (⌊h⌋).toNat 0 +
    (h - (((⌊h⌋).toNat : ℕ) : ℚ)) *
      (v.getD ((⌊h⌋).toNat + 1) (v.getD (⌊h⌋).toNat 0) - v.getD (⌊h⌋).toNat 0)

/-- `np.quantile(vals, q, method="linear")` — `_quantiles` of lines
13-22, applied to the (internally sorted) run. -/
def quantileLinear (v : List ℚ) (q : ℚ) : ℚ :=
  if v.isEmpty then 0 else interpFrac v (q * ((v.length : ℚ) - 1))

/-- The sorted run used for order statistics. -/
def sortedValsOf (surv : List (ℕ × ℚ)) (l : ℕ) : List ℚ :=
  List.insertionSort (· ≤ ·) (valsOf surv l)

/-- Quantile of label `l`'s run at probability `q` (line 159). -/
def roiQuantile (surv : List (ℕ × ℚ)) (l : ℕ) (q : ℚ) : ℚ :=
  quantileLinear (sortedValsOf surv l) q

/-- Minimum of a run (`np.minimum.reduceat`, line 135). -/
def listMin : List ℚ → ℚ
  | [] => 0
  | x :: xs => xs.foldl min x

/-- Maximum of a run (`np.maximum.reduceat`, line 136). -/
def listMax : List ℚ → ℚ
  | [] => 0
  | x :: xs => xs.foldl max x

/-- Membership test `low1 <= x <= high1` with `low1 = mean - std`,
`high1 = mean + std`, `std = sqrt var` (lines 173-175), encoded exactly
over rationals: for `0 ≤ var`,
`mean - sqrt var ≤ x ∧ x ≤ mean + sqrt var ↔ (x - mean)^2 ≤ var`. -/
def withinOneSd (m v x : ℚ) : Bool :=
  decide ((x - m) * (x - m) ≤ v)

/-- `pct_within_1sd` for label `l` (lines 169-178): percentage of the
run within mean ± 1 std, or the NaN sentinel (here `none`) when mean or
std is non-finite. -/
def pct1sdOf (surv : List (ℕ × ℚ)) (l : ℕ) : Option ℚ :=
  if isFiniteQ (roiMean surv l) && isFiniteQ (roiVar surv l) then
    some (100 * (((valsOf surv l).filter
      (fun x => withinOneSd (roiMean surv l) (roiVar surv l) x)).length : ℚ)
      / (roiCount surv l : ℚ))
  else none

/-- `pct_within_whiskers` for label `l` (lines 180-187): percentage of
the run within `[q1 - 1.5*iqr, q3 + 1.5*iqr]`, or the NaN sentinel when
the IQR is non-finite. -/
def pctWhiskOf (surv : List (ℕ × ℚ)) (l : ℕ) : Option ℚ :=
  let q25 := roiQuantile surv l (1/4)
  let q75 := roiQuantile surv l (3/4)
  let iqr := q75 - q25
  if isFiniteQ iqr then
    some (100 * (((valsOf surv l).filter
      (fun x => decide (q25 - 3/2 * iqr ≤ x) && decide (x ≤ q75 + 3/2 * iqr))).length : ℚ)
      / (roiCount surv l : ℚ))
  else none

/-- One per-ROI statistics record (the inner `Dict[str, float]` row of
lines 197-213).  `var` stands for the clamped variance; the code's
`std` field is `Real.sqrt var`.  `min`/`max` are present exactly when
`compute_minmax` holds. -/
structure RoiStats where
  n_voxels : ℕ
  mean : ℚ
  var : ℚ
  p05 : ℚ
  q1 : ℚ
  median : ℚ
  q3 : ℚ
  p95 : ℚ
  iqr : ℚ
  pct_within_1sd : Option ℚ
  pct_within_whiskers : Option ℚ
  min : Option ℚ
  max : Option ℚ
deriving DecidableEq

/-- Assemble the record of label `l` from the aggregation maps (lines
152-215 of the source, specialised to one label of the run list). -/
def statsFor (surv : List (ℕ × ℚ)) (compute_minmax : Bool) (l : ℕ) : RoiStats :=
  { n_voxels := roiCount surv l
    mean := roiMean surv l
    var := roiVar surv l
    p05 := roiQuantile surv l (1/20)
    q1 := roiQuantile surv l (1/4)
    median := roiQuantile surv l (1/2)
    q3 := roiQuantile surv l (3/4)
    p95 := roiQuantile surv l (19/20)
    iqr := roiQuantile surv l (3/4) - roiQuantile surv l (1/4)
    pct_within_1sd := pct1sdOf surv l
    pct_within_whiskers := pctWhiskOf surv l
    min := if compute_minmax then some (listMin (valsOf surv l)) else none
    max := if compute_minmax then some (listMax (valsOf surv l)) else none }

/-- `compute_stats_fast` (lines 90-217): mask, then one record per
distinct surviving label (`np.unique(labels)` order), empty mapping when
nothing survives. -/
def compute_stats_fast (voxels : List (ℕ × FVal)) (include_negative : Bool)
    (compute_minmax : Bool) : List (ℕ × RoiStats) :=
  if (survivors include_negative voxels).isEmpty then []
  else (uniqueSorted ((survivors include_negative voxels).map Prod.fst)).map
    (fun l => (l, statsFor (survivors include_negative voxels) compute_minmax l))

/-- `dict.get(key, default)` for the id→name table. -/
def tableGet (t : List (ℤ × String)) (i : ℤ) : String :=
  match t.lookup i with
  | some s => s
  | none => "ID_" ++ toString i

/-- `label_name_from_id` (lines 40-60). -/
def label_name_from_id (roi_id : ℤ) (id_to_name : List (ℤ × String))
    (lr_offset : ℤ) (right_suffix left_suffix : String) : ℤ × String × String :=
  if roi_id = 0 then (0, "", "Background")
  else if lr_offset > 0 ∧ roi_id ≥ lr_offset then
    (roi_id - lr_offset, "L", tableGet id_to_name (roi_id - lr_offset) ++ left_suffix)
  else
    (roi_id, "R", tableGet id_to_name roi_id ++ right_suffix)

/-! ### Order-statistics lemmas for the linear-interpolation quantile -/

theorem getD_mono_of_sorted {v : List ℚ} (hs : v.Sorted (· ≤ ·)) {a b : ℕ}
    (hab : a ≤ b) (hb : b < v.length) : v.getD a 0 ≤ v.getD b 0 := by
  have ha : a < v.length := lt_of_le_of_lt hab hb
  rw [List.getD_eq_getElem?_getD, List.getD_eq_getElem?_getD,
      List.getElem?_eq_getElem ha, List.getElem?_eq_getElem hb]
  simpa using hs.rel_get_of_le (a := ⟨a, ha⟩) (b := ⟨b, hb⟩) hab

theorem getD_lo_le_hi {v : List ℚ} (hs : v.Sorted (· ≤ ·)) (i : ℕ) :
    v.getD i 0 ≤ v.getD (i + 1) (v.getD i 0) := by
  by_cases h : i + 1 < v.length
  · rw [List.getD_eq_getElem?_getD (n := i + 1), List.getElem?_eq_getElem h]
    have := getD_mono_of_sorted hs (Nat.le_succ i) h
    simpa [List.getD_eq_getElem?_getD, List.getElem?_eq_getElem h] using this
  · rw [List.getD_eq_getElem?_getD (n := i + 1), List.getElem?_eq_none (by omega)]
    simp

theorem floor_toNat_cast {h : ℚ} (h0 : 0 ≤ h) :
    ((((⌊h⌋).toNat : ℕ) : ℚ)) = (⌊h⌋ : ℚ) := by
  have hz : (0 : ℤ) ≤ ⌊h⌋ := Int.floor_nonneg.mpr h0
  exact_mod_cast congrArg (fun z : ℤ => (z : ℚ)) (Int.toNat_of_nonneg hz)

theorem interpFrac_ge_lo {v : List ℚ} (hs : v.Sorted (· ≤ ·)) {h : ℚ} (h0 : 0 ≤ h) :
    v.getD (⌊h⌋).toNat 0 ≤ interpFrac v h := by
  unfold interpFrac
  have hg : 0 ≤ h - (((⌊h⌋).toNat : ℕ) : ℚ) := by
    rw [floor_toNat_cast h0]
    have := Int.floor_le h
    linarith
  have hlh := getD_lo_le_hi hs (⌊h⌋).toNat
  have hm := mul_nonneg hg (sub_nonneg.mpr hlh)
  linarith

theorem interpFrac_le_hi {v : List ℚ} (hs : v.Sorted (· ≤ ·)) {h : ℚ} (h0 : 0 ≤ h) :
    interpFrac v h ≤ v.getD ((⌊h⌋).toNat + 1) (v.getD (⌊h⌋).toNat 0) := by
  unfold interpFrac
  have hg1 : h - (((⌊h⌋).toNat : ℕ) : ℚ) ≤ 1 := by
    rw [floor_toNat_cast h0]
    have := Int.lt_floor_add_one h
    linarith
  have hlh := getD_lo_le_hi hs (⌊h⌋).toNat
  have hm := mul_nonneg (by linarith : (0:ℚ) ≤ 1 - (h - (((⌊h⌋).toNat : ℕ) : ℚ)))
    (sub_nonneg.mpr hlh)
  nlinarith [hm]

theorem floor_toNat_le_of_le {h : ℚ} {n : ℕ} (_h0 : 0 ≤ h) (hn : h ≤ (n : ℚ)) :
    (⌊h⌋).toNat ≤ n := by
  have h1 : ⌊h⌋ ≤ (n : ℤ) := by
    have := Int.floor_mono hn
    simpa [Int.floor_intCast] using this
  omega

theorem interpFrac_mono {v : List ℚ} (hs : v.Sorted (· ≤ ·)) {h₁ h₂ : ℚ}
    (h0 : 0 ≤ h₁) (h12 : h₁ ≤ h₂) (h2 : h₂ ≤ (v.length : ℚ) - 1) :
    interpFrac v h₁ ≤ interpFrac v h₂ := by
  have h0' : 0 ≤ h₂ := le_trans h0 h12
  have hi12 : (⌊h₁⌋).toNat ≤ (⌊h₂⌋).toNat := by
    have := Int.floor_mono h12
    omega
  rcases eq_or_lt_of_le hi12 with heq | hlt
  · unfold interpFrac
    rw [← heq]
    have hlh := getD_lo_le_hi hs (⌊h₁⌋).toNat
    have hm := mul_nonneg (by linarith : (0:ℚ) ≤ h₂ - h₁) (sub_nonneg.mpr hlh)
    nlinarith [hm]
  · -- the two fractional positions fall in different cells
    have hn1 : 1 ≤ v.length := by
      by_contra hc
      have hl0 : v.length = 0 := by omega
      rw [hl0] at h2
      norm_num at h2
      linarith
    have hup : (⌊h₂⌋).toNat ≤ v.length - 1 := by
      apply floor_toNat_le_of_le h0'
      have hc : ((v.length - 1 : ℕ) : ℚ) = (v.length : ℚ) - 1 := by
        push_cast [Nat.cast_sub hn1]
        ring
      linarith [hc]
    have hub : (⌊h₂⌋).toNat < v.length := by omega
    have step1 : interpFrac v h₁ ≤ v.getD ((⌊h₁⌋).toNat + 1) (v.getD (⌊h₁⌋).toNat 0) :=
      interpFrac_le_hi hs h0
    have hbound : (⌊h₁⌋).toNat + 1 < v.length := by omega
    have step2 : v.getD ((⌊h₁⌋).toNat + 1) (v.getD (⌊h₁⌋).toNat 0) ≤ v.getD (⌊h₂⌋).toNat 0 := by
      rw [List.getD_eq_getElem?_getD (n := (⌊h₁⌋).toNat + 1),
          List.getElem?_eq_getElem hbound]
      have := getD_mono_of_sorted hs (a := (⌊h₁⌋).toNat + 1) (b := (⌊h₂⌋).toNat)
        (by omega) hub
      simpa [List.getD_eq_getElem?_getD, List.getElem?_eq_getElem hbound] using this
    have step3 : v.getD (⌊h₂⌋).toNat 0 ≤ interpFrac v h₂ := interpFrac_ge_lo hs h0'
    linarith

theorem quantileLinear_mono {v : List ℚ} (hs : v.Sorted (· ≤ ·)) {q₁ q₂ : ℚ}
    (h0 : 0 ≤ q₁) (h12 : q₁ ≤ q₂) (h2 : q₂ ≤ 1) :
    quantileLinear v q₁ ≤ quantileLinear v q₂ := by
  unfold quantileLinear
  by_cases hv : v.isEmpty
  · simp [hv]
  · simp only [hv, if_false]
    have hn1 : 1 ≤ v.length := by
      cases v with
      | nil => simp at hv
      | cons a l => simp [Nat.succ_le_succ]
    have hlen : (0:ℚ) ≤ (v.length : ℚ) - 1 := by
      have : (1:ℚ) ≤ (v.length : ℚ) := by exact_mod_cast hn1
      linarith
    apply interpFrac_mono hs
    · exact mul_nonneg h0 hlen
    · exact mul_le_mul_of_nonneg_right h12 hlen
    · calc q₂ * ((v.length : ℚ) - 1) ≤ 1 * ((v.length : ℚ) - 1) :=
            mul_le_mul_of_nonneg_right h2 hlen
        _ = (v.length : ℚ) - 1 := one_mul _

theorem quantileLinear_ge_head {v : List ℚ} (hs : v.Sorted (· ≤ ·)) (hv : v ≠ [])
    {q : ℚ} (h0 : 0 ≤ q) (h1 : q ≤ 1) : v.getD 0 0 ≤ quantileLinear v q := by
  unfold quantileLinear
  rw [if_neg (by simpa using hv)]
  have hn1 : 1 ≤ v.length := by
    cases v with
    | nil => exact absurd rfl hv
    | cons a l => simp [Nat.succ_le_succ]
  have hlen : (0:ℚ) ≤ (v.length : ℚ) - 1 := by
    have : (1:ℚ) ≤ (v.length : ℚ) := by exact_mod_cast hn1
    linarith
  have hh0 : 0 ≤ q * ((v.length : ℚ) - 1) := mul_nonneg h0 hlen
  calc v.getD 0 0 ≤ v.getD (⌊q * ((v.length : ℚ) - 1)⌋).toNat 0 := by
        apply getD_mono_of_sorted hs (Nat.zero_le _)
        have : (⌊q * ((v.length : ℚ) - 1)⌋).toNat ≤ v.length - 1 := by
          apply floor_toNat_le_of_le hh0
          have hc : ((v.length - 1 : ℕ) : ℚ) = (v.length : ℚ) - 1 := by
            push_cast [Nat.cast_sub hn1]
            ring
          rw [hc]
          calc q * ((v.length : ℚ) - 1) ≤ 1 * ((v.length : ℚ) - 1) :=
                mul_le_mul_of_nonneg_right h1 hlen
            _ = (v.length : ℚ) - 1 := one_mul _
        omega
    _ ≤ interpFrac v (q * ((v.length : ℚ) - 1)) := interpFrac_ge_lo hs hh0

theorem quantileLinear_le_last {v : List ℚ} (hs : v.Sorted (· ≤ ·)) (hv : v ≠ [])
    {q : ℚ} (h0 : 0 ≤ q) (h1 : q ≤ 1) :
    quantileLinear v q ≤ v.getD (v.length - 1) 0 := by
  unfold quantileLinear
  rw [if_neg (by simpa using hv)]
  have hn1 : 1 ≤ v.length := by
    cases v with
    | nil => exact absurd rfl hv
    | cons a l => simp [Nat.succ_le_succ]
  have hlen : (0:ℚ) ≤ (v.length : ℚ) - 1 := by
    have : (1:ℚ) ≤ (v.length : ℚ) := by exact_mod_cast hn1
    linarith
  have hh0 : 0 ≤ q * ((v.length : ℚ) - 1) := mul_nonneg h0 hlen
  have hfl : (⌊q * ((v.length : ℚ) - 1)⌋).toNat ≤ v.length - 1 := by
    apply floor_toNat_le_of_le hh0
    have hc : ((v.length - 1 : ℕ) : ℚ) = (v.length : ℚ) - 1 := by
      push_cast [Nat.cast_sub hn1]
      ring
    rw [hc]
    calc q * ((v.length : ℚ) - 1) ≤ 1 * ((v.length : ℚ) - 1) :=
          mul_le_mul_of_nonneg_right h1 hlen
      _ = (v.length : ℚ) - 1 := one_mul _
  refine le_trans (interpFrac_le_hi hs hh0) ?_
  by_cases hb : (⌊q * ((v.length : ℚ) - 1)⌋).toNat + 1 < v.length
  · rw [List.getD_eq_getElem?_getD (n := (⌊q * ((v.length : ℚ) - 1)⌋).toNat + 1),
        List.getElem?_eq_getElem hb]
    have := getD_mono_of_sorted hs (a := (⌊q * ((v.length : ℚ) - 1)⌋).toNat + 1)
      (b := v.length - 1) (by omega) (by omega)
    simpa [List.getD_eq_getElem?_getD, List.getElem?_eq_getElem hb] using this
  · rw [List.getD_eq_getElem?_getD (n := (⌊q * ((v.length : ℚ) - 1)⌋).toNat + 1),
        List.getElem?_eq_none (by omega)]
    simp only [Option.getD_none]
    apply getD_mono_of_sorted hs hfl
    omega

/-! ### Fold-based minimum and maximum of a run -/

theorem foldl_min_le_init (xs : List ℚ) (x : ℚ) : xs.foldl min x ≤ x := by
  induction xs generalizing x with
  | nil => simp
  | cons z zs ih =>
    simp only [List.foldl_cons]
    exact le_trans (ih (min x z)) (min_le_left _ _)

theorem foldl_min_le_mem {xs : List ℚ} {y : ℚ} (x : ℚ) (h : y ∈ xs) :
    xs.foldl min x ≤ y := by
  induction xs generalizing x with
  | nil => simp at h
  | cons z zs ih =>
    simp only [List.foldl_cons]
    rcases List.mem_cons.mp h with h1 | h2
    · rw [h1]
      exact le_trans (foldl_min_le_init zs (min x z)) (min_le_right _ _)
    · exact ih _ h2

theorem le_foldl_max_init (xs : List ℚ) (x : ℚ) : x ≤ xs.foldl max x := by
  induction xs generalizing x with
  | nil => simp
  | cons z zs ih =>
    simp only [List.foldl_cons]
    exact le_trans (le_max_left _ _) (ih (max x z))

theorem le_foldl_max_mem {xs : List ℚ} {y : ℚ} (x : ℚ) (h : y ∈ xs) :
    y ≤ xs.foldl max x := by
  induction xs generalizing x with
  | nil => simp at h
  | cons z zs ih =>
    simp only [List.foldl_cons]
    rcases List.mem_cons.mp h with h1 | h2
    · rw [h1]
      exact le_trans (le_max_right _ _) (le_foldl_max_init zs (max x z))
    · exact ih _ h2

theorem listMin_le {l : List ℚ} {y : ℚ} (h : y ∈ l) : listMin l ≤ y := by
  cases l with
  | nil => simp at h
  | cons x xs =>
    rcases List.mem_cons.mp h with h1 | h2
    · rw [h1]
      exact foldl_min_le_init xs x
    · exact foldl_min_le_mem x h2

theorem le_listMax {l : List ℚ} {y : ℚ} (h : y ∈ l) : y ≤ listMax l := by
  cases l with
  | nil => simp at h
  | cons x xs =>
    rcases List.mem_cons.mp h with h1 | h2
    · rw [h1]
      exact le_foldl_max_init xs x
    · exact le_foldl_max_mem x h2

/-! ### Structure of the aggregated mapping -/

theorem survivors_filter_keep (inc : Bool) (voxels : List (ℕ × FVal)) :
    survivors inc (voxels.filter (fun p => keepVoxel inc p.2)) = survivors inc voxels := by
  unfold survivors
  rw [List.filter_filter]
  simp

theorem survivors_eq_nil_of_all_invalid {inc : Bool} {voxels : List (ℕ × FVal)}
    (h : ∀ p ∈ voxels, keepVoxel inc p.2 = false) : survivors inc voxels = [] := by
  unfold survivors
  have : voxels.filter (fun p => keepVoxel inc p.2) = [] := by
    rw [List.filter_eq_nil_iff]
    intro a ha
    simp [h a ha]
  rw [this]
  rfl

theorem valsOf_ne_nil_of_mem_unique {surv : List (ℕ × ℚ)} {l : ℕ}
    (h : l ∈ uniqueSorted (surv.map Prod.fst)) : valsOf surv l ≠ [] := by
  unfold uniqueSorted at h
  rw [List.mem_insertionSort, List.mem_dedup] at h
  rcases List.mem_map.mp h with ⟨p, hp, hfst⟩
  unfold valsOf
  intro hnil
  have hpf : p ∈ surv.filter (fun p => p.1 == l) :=
    List.mem_filter.mpr ⟨hp, by simp [hfst]⟩
  rw [List.map_eq_nil_iff] at hnil
  rw [hnil] at hpf
  simp at hpf

theorem mem_unique_of_valsOf_ne {surv : List (ℕ × ℚ)} {l : ℕ}
    (h : valsOf surv l ≠ []) : l ∈ uniqueSorted (surv.map Prod.fst) := by
  unfold uniqueSorted
  rw [List.mem_insertionSort, List.mem_dedup]
  unfold valsOf at h
  rcases List.exists_mem_of_ne_nil _ h with ⟨y, hy⟩
  rcases List.mem_map.mp hy with ⟨p, hpf, _⟩
  rcases List.mem_filter.mp hpf with ⟨hp, heq⟩
  have : p.1 = l := by simpa using heq
  exact List.mem_map.mpr ⟨p, hp, this⟩

theorem surv_ne_nil_of_valsOf_ne {surv : List (ℕ × ℚ)} {l : ℕ}
    (h : valsOf surv l ≠ []) : surv.isEmpty = false := by
  unfold valsOf at h
  rcases List.exists_mem_of_ne_nil _ h with ⟨y, hy⟩
  rcases List.mem_map.mp hy with ⟨p, hpf, _⟩
  rcases List.mem_filter.mp hpf with ⟨hp, _⟩
  cases surv with
  | nil => simp at hp
  | cons a t => rfl

theorem mem_compute_stats {voxels : List (ℕ × FVal)} {inc mm : Bool} {l : ℕ} {r : RoiStats}
    (h : (l, r) ∈ compute_stats_fast voxels inc mm) :
    r = statsFor (survivors inc voxels) mm l ∧ valsOf (survivors inc voxels) l ≠ [] := by
  unfold compute_stats_fast at h
  by_cases he : (survivors inc voxels).isEmpty
  · simp [he] at h
  · simp only [he, if_false] at h
    rcases List.mem_map.mp h with ⟨a, ha, heq⟩
    have h1 : a = l := congrArg Prod.fst heq
    subst h1
    have h2 : statsFor (survivors inc voxels) mm a = r := congrArg Prod.snd heq
    exact ⟨h2.symm, valsOf_ne_nil_of_mem_unique ha⟩

theorem compute_stats_mem_of_valsOf_ne {voxels : List (ℕ × FVal)} {inc mm : Bool} {l : ℕ}
    (h : valsOf (survivors inc voxels) l ≠ []) :
    (l, statsFor (survivors inc voxels) mm l) ∈ compute_stats_fast voxels inc mm := by
  unfold compute_stats_fast
  rw [surv_ne_nil_of_valsOf_ne h]
  simp only [Bool.false_eq_true, if_false]
  exact List.mem_map.mpr ⟨l, mem_unique_of_valsOf_ne h, rfl⟩

theorem roiCount_pos_iff (surv : List (ℕ × ℚ)) (l : ℕ) :
    0 < roiCount surv l ↔ valsOf surv l ≠ [] := by
  unfold roiCount
  exact List.length_pos

theorem pct_formula_bounds {c n : ℕ} (hc : c ≤ n) (hn : 0 < n) :
    0 ≤ 100 * (c : ℚ) / (n : ℚ) ∧ 100 * (c : ℚ) / (n : ℚ) ≤ 100 := by
  have hn' : (0:ℚ) < (n : ℚ) := by exact_mod_cast hn
  constructor
  · positivity
  · rw [div_le_iff₀ hn']
    have hcn : (c : ℚ) ≤ (n : ℚ) := by exact_mod_cast hc
    nlinarith

theorem sortedValsOf_sorted (surv : List (ℕ × ℚ)) (l : ℕ) :
    (sortedValsOf surv l).Sorted (· ≤ ·) :=
  List.sorted_insertionSort _ _

theorem sortedValsOf_ne_nil {surv : List (ℕ × ℚ)} {l : ℕ}
    (h : valsOf surv l ≠ []) : sortedValsOf surv l ≠ [] := by
  unfold sortedValsOf
  intro hnil
  exact h (((List.perm_insertionSort (· ≤ ·) (valsOf surv l)).symm.trans
    (by rw [hnil])).eq_nil)

theorem getD_mem_of_lt {v : List ℚ} {i : ℕ} (hi : i < v.length) : v.getD i 0 ∈ v := by
  rw [List.getD_eq_getElem?_getD, List.getElem?_eq_getElem hi]
  exact List.getElem_mem hi

/-! ### Claim theorems for the statistics engine -/

/-- C3: `compute_stats_fast` keeps exactly the voxels whose value is
finite and (include_negative or value ≥ 0): the mask has exactly this
semantics, dropping the invalid voxels beforehand leaves the result
unchanged (invalid voxels influence no region's statistics), and when no
voxel survives the mask the function returns the empty mapping rather
than an error. -/
theorem c3_mask_and_empty (voxels : List (ℕ × FVal)) (inc mm : Bool) :
    (∀ p : ℕ × FVal, keepVoxel inc p.2 = true
        ↔ (p.2.isFinite = true ∧ (inc = true ∨ p.2.ge0 = true)))
      ∧ compute_stats_fast (voxels.filter (fun p => keepVoxel inc p.2)) inc mm
          = compute_stats_fast voxels inc mm
      ∧ ((∀ p ∈ voxels, keepVoxel inc p.2 = false)
          → compute_stats_fast voxels inc mm = []) := by
  refine ⟨?_, ?_, ?_⟩
  · intro p
    simp [keepVoxel]
  · unfold compute_stats_fast
    rw [survivors_filter_keep]
  · intro hall
    unfold compute_stats_fast
    rw [survivors_eq_nil_of_all_invalid hall]
    rfl

/-- C1 counterexample: the claim says the mapping returned by
`compute_stats_fast` never contains the key 0, but background voxels
(label 0) that pass the validity mask produce a record keyed 0. -/
theorem c1_counterexample :
    0 ∈ (compute_stats_fast [(0, FVal.fin 1), (7, FVal.fin 2)] false true).map Prod.fst := by
  decide

/-- C1 (amended): the mapping returned by `compute_stats_fast` contains
a key exactly when that label has a positive surviving voxel count after
the validity mask — in particular it never contains a key whose
surviving count is 0, but it may contain the key 0 (id 0 is only dropped
later, during report assembly). -/
theorem c1_amended_keys (voxels : List (ℕ × FVal)) (inc mm : Bool) (l : ℕ) :
    ((∃ r, (l, r) ∈ compute_stats_fast voxels inc mm)
        ↔ 0 < roiCount (survivors inc voxels) l)
      ∧ ∀ r, (l, r) ∈ compute_stats_fast voxels inc mm
          → r.n_voxels = roiCount (survivors inc voxels) l := by
  constructor
  · constructor
    · rintro ⟨r, hr⟩
      exact (roiCount_pos_iff _ _).mpr (mem_compute_stats hr).2
    · intro h
      exact ⟨_, compute_stats_mem_of_valsOf_ne ((roiCount_pos_iff _ _).mp h)⟩
  · intro r hr
    rw [(mem_compute_stats hr).1]
    rfl

/-- C8: for every aggregated id, mean = sum/count, the variance is the
clamped `max(0, sumsq/count − mean²)` and hence never negative, and the
standard deviation (the square root of the clamped variance) squares
back to it. -/
theorem c8_mean_var (voxels : List (ℕ × FVal)) (inc mm : Bool) (l : ℕ) (r : RoiStats)
    (h : (l, r) ∈ compute_stats_fast voxels inc mm) :
    r.mean = roiSum (survivors inc voxels) l / (r.n_voxels : ℚ)
      ∧ r.var = max (roiSumSq (survivors inc voxels) l / (r.n_voxels : ℚ)
          - r.mean * r.mean) 0
      ∧ 0 ≤ r.var
      ∧ Real.sqrt ((r.var : ℚ) : ℝ) ^ 2 = ((r.var : ℚ) : ℝ) := by
  obtain ⟨rfl, -⟩ := mem_compute_stats h
  refine ⟨rfl, rfl, le_max_right _ _, ?_⟩
  apply Real.sq_sqrt
  have h0 : (0:ℚ) ≤ (statsFor (survivors inc voxels) mm l).var := le_max_right _ _
  exact_mod_cast h0

/-- C6: for every emitted ROI record, q1 ≤ median ≤ q3 and
iqr = q3 − q1 ≥ 0, p05 ≤ q1 and q3 ≤ p95, and whenever min/max are
computed, min ≤ p05 and p95 ≤ max. -/
theorem c6_quantile_order (voxels : List (ℕ × FVal)) (inc mm : Bool) (l : ℕ) (r : RoiStats)
    (h : (l, r) ∈ compute_stats_fast voxels inc mm) :
    r.q1 ≤ r.median ∧ r.median ≤ r.q3 ∧ r.iqr = r.q3 - r.q1 ∧ 0 ≤ r.iqr
      ∧ r.p05 ≤ r.q1 ∧ r.q3 ≤ r.p95
      ∧ (∀ mn, r.min = some mn → mn ≤ r.p05)
      ∧ (∀ mx, r.max = some mx → r.p95 ≤ mx) := by
  obtain ⟨rfl, hv⟩ := mem_compute_stats h
  have hs := sortedValsOf_sorted (survivors inc voxels) l
  have hne := sortedValsOf_ne_nil hv
  have h14 : roiQuantile (survivors inc voxels) l (1/4)
      ≤ roiQuantile (survivors inc voxels) l (1/2) :=
    quantileLinear_mono hs (by norm_num) (by norm_num) (by norm_num)
  have h12 : roiQuantile (survivors inc voxels) l (1/2)
      ≤ roiQuantile (survivors inc voxels) l (3/4) :=
    quantileLinear_mono hs (by norm_num) (by norm_num) (by norm_num)
  have h05 : roiQuantile (survivors inc voxels) l (1/20)
      ≤ roiQuantile (survivors inc voxels) l (1/4) :=
    quantileLinear_mono hs (by norm_num) (by norm_num) (by norm_num)
  have h95 : roiQuantile (survivors inc voxels) l (3/4)
      ≤ roiQuantile (survivors inc voxels) l (19/20) :=
    quantileLinear_mono hs (by norm_num) (by norm_num) (by norm_num)
  have hiqr : (0:ℚ) ≤ (statsFor (survivors inc voxels) mm l).iqr := by
    simp only [statsFor]
    exact sub_nonneg.mpr (le_trans h14 h12)
  refine ⟨h14, h12, rfl, hiqr, h05, h95, ?_, ?_⟩
  · intro mn hmn
    have hlen : 0 < (sortedValsOf (survivors inc voxels) l).length :=
      List.length_pos.mpr hne
    have hmem : (sortedValsOf (survivors inc voxels) l).getD 0 0
        ∈ valsOf (survivors inc voxels) l :=
      (List.mem_insertionSort _).mp (getD_mem_of_lt hlen)
    have hmin : listMin (valsOf (survivors inc voxels) l)
        ≤ (sortedValsOf (survivors inc voxels) l).getD 0 0 := listMin_le hmem
    have hq : (sortedValsOf (survivors inc voxels) l).getD 0 0
        ≤ roiQuantile (survivors inc voxels) l (1/20) :=
      quantileLinear_ge_head hs hne (by norm_num) (by norm_num)
    have hval : mn = listMin (valsOf (survivors inc voxels) l) := by
      by_cases hmmv : mm
      · simp only [statsFor, hmmv, if_true, Option.some.injEq] at hmn
        exact hmn.symm
      · simp [statsFor, hmmv] at hmn
    rw [hval]
    exact le_trans hmin (le_trans hq (le_refl _))
  · intro mx hmx
    have hlen : 0 < (sortedValsOf (survivors inc voxels) l).length :=
      List.length_pos.mpr hne
    have hlast : (sortedValsOf (survivors inc voxels) l).length - 1
        < (sortedValsOf (survivors inc voxels) l).length := by omega
    have hmem : (sortedValsOf (survivors inc voxels) l).getD
          ((sortedValsOf (survivors inc voxels) l).length - 1) 0
        ∈ valsOf (survivors inc voxels) l :=
      (List.mem_insertionSort _).mp (getD_mem_of_lt hlast)
    have hmax : (sortedValsOf (survivors inc voxels) l).getD
          ((sortedValsOf (survivors inc voxels) l).length - 1) 0
        ≤ listMax (valsOf (survivors inc voxels) l) := le_listMax hmem
    have hq : roiQuantile (survivors inc voxels) l (19/20)
        ≤ (sortedValsOf (survivors inc voxels) l).getD
            ((sortedValsOf (survivors inc voxels) l).length - 1) 0 :=
      quantileLinear_le_last hs hne (by norm_num) (by norm_num)
    have hval : mx = listMax (valsOf (survivors inc voxels) l) := by
      by_cases hmmv : mm
      · simp only [statsFor, hmmv, if_true, Option.some.injEq] at hmx
        exact hmx.symm
      · simp [statsFor, hmmv] at hmx
    rw [hval]
    exact le_trans hq hmax

/-- C7: for every emitted ROI record, `pct_within_1sd` and
`pct_within_whiskers` lie in `[0, 100]` whenever they are defined, and
each is the not-available sentinel exactly when the underlying mean/std
(respectively IQR) fails the finiteness check (never, in the
exact-arithmetic model). -/
theorem c7_pct_bounds (voxels : List (ℕ × FVal)) (inc mm : Bool) (l : ℕ) (r : RoiStats)
    (h : (l, r) ∈ compute_stats_fast voxels inc mm) :
    (∃ p, r.pct_within_1sd = some p ∧ 0 ≤ p ∧ p ≤ 100)
      ∧ (∃ p, r.pct_within_whiskers = some p ∧ 0 ≤ p ∧ p ≤ 100)
      ∧ (r.pct_within_1sd = none ↔ (isFiniteQ r.mean && isFiniteQ r.var) = false)
      ∧ (r.pct_within_whiskers = none ↔ isFiniteQ r.iqr = false) := by
  obtain ⟨rfl, hv⟩ := mem_compute_stats h
  have hn : 0 < roiCount (survivors inc voxels) l := (roiCount_pos_iff _ _).mpr hv
  refine ⟨?_, ?_, by simp [statsFor, pct1sdOf, isFiniteQ], by simp [statsFor, pctWhiskOf, isFiniteQ]⟩
  · exact ⟨_, rfl, pct_formula_bounds (List.length_filter_le _ _) hn⟩
  · exact ⟨_, rfl, pct_formula_bounds (List.length_filter_le _ _) hn⟩

/-- Faithfulness of the `withinOneSd` encoding: for a nonnegative
variance it is exactly the real-number test
`mean − √var ≤ x ∧ x ≤ mean + √var` of lines 173-175. -/
theorem withinOneSd_iff_sqrt {m v x : ℚ} (hv : 0 ≤ v) :
    withinOneSd m v x = true
      ↔ ((m : ℝ) - Real.sqrt (v : ℝ) ≤ (x : ℝ)
          ∧ (x : ℝ) ≤ (m : ℝ) + Real.sqrt (v : ℝ)) := by
  unfold withinOneSd
  rw [decide_eq_true_eq]
  have hv' : (0:ℝ) ≤ (v : ℝ) := by exact_mod_cast hv
  constructor
  · intro hq
    have hq' : ((x : ℝ) - (m : ℝ)) ^ 2 ≤ (v : ℝ) := by
      have : ((x - m : ℚ) : ℝ) * ((x - m : ℚ) : ℝ) ≤ ((v : ℚ) : ℝ) := by exact_mod_cast hq
      push_cast at this
      nlinarith [this]
    have habs : |(x : ℝ) - (m : ℝ)| ≤ Real.sqrt (v : ℝ) := by
      rw [← Real.sqrt_sq_eq_abs]
      exact Real.sqrt_le_sqrt hq'
    rcases abs_le.mp habs with ⟨h1, h2⟩
    constructor <;> linarith
  · rintro ⟨h1, h2⟩
    have habs : |(x : ℝ) - (m : ℝ)| ≤ Real.sqrt (v : ℝ) := abs_le.mpr ⟨by linarith, by linarith⟩
    have hsq : ((x : ℝ) - (m : ℝ)) ^ 2 ≤ Real.sqrt (v : ℝ) ^ 2 := by
      have h0 : (0:ℝ) ≤ |(x : ℝ) - (m : ℝ)| := abs_nonneg _
      calc ((x : ℝ) - (m : ℝ)) ^ 2 = |(x : ℝ) - (m : ℝ)| ^ 2 := (sq_abs _).symm
        _ ≤ Real.sqrt (v : ℝ) ^ 2 := by
            apply pow_le_pow_left₀ h0 habs
    rw [Real.sq_sqrt hv'] at hsq
    have : ((x - m : ℚ) : ℝ) * ((x - m : ℚ) : ℝ) ≤ ((v : ℚ) : ℝ) := by
      push_cast
      nlinarith [hsq]
    exact_mod_cast this

/-- C4: the label resolver is total and implements exactly the three
documented cases, with unmapped ids degrading to the synthesized
`ID_<n>` name rather than erroring. -/
theorem c4_label_resolver (roi_id : ℤ) (id_to_name : List (ℤ × String))
    (lr_offset : ℤ) (right_suffix left_suffix : String) :
    (roi_id = 0
        → label_name_from_id roi_id id_to_name lr_offset right_suffix left_suffix
            = (0, "", "Background"))
      ∧ (roi_id ≠ 0 → lr_offset > 0 → roi_id ≥ lr_offset
        → label_name_from_id roi_id id_to_name lr_offset right_suffix left_suffix
            = (roi_id - lr_offset, "L",
                tableGet id_to_name (roi_id - lr_offset) ++ left_suffix))
      ∧ (roi_id ≠ 0 → ¬(lr_offset > 0 ∧ roi_id ≥ lr_offset)
        → label_name_from_id roi_id id_to_name lr_offset right_suffix left_suffix
            = (roi_id, "R", tableGet id_to_name roi_id ++ right_suffix))
      ∧ (∀ i : ℤ, id_to_name.lookup i = none
        → tableGet id_to_name i = "ID_" ++ toString i) := by
  refine ⟨?_, ?_, ?_, ?_⟩
  · intro h
    simp [label_name_from_id, h]
  · intro h0 h1 h2
    simp [label_name_from_id, h0, h1, h2]
  · intro h0 h1
    simp [label_name_from_id, h0, h1]
  · intro i hi
    simp [tableGet, hi]

/-! ### Report assembly (`main`, lines 427-480) -/

/-- One report row (lines 459-480).  Numeric statistic cells are
`Option` values, `none` standing for the NaN ("not-available") sentinel;
`var` stands for the written `std = Real.sqrt var`, which is the
sentinel exactly when `var` is. -/
structure ReportRow where
  roi_id : ℕ
  roi_base_id : ℤ
  hemisphere : String
  roi_name : String
  n_voxels : Option ℕ
  mean : Option ℚ
  var : Option ℚ
  min : Option ℚ
  max : Option ℚ
  p05 : Option ℚ
  q1 : Option ℚ
  median : Option ℚ
  q3 : Option ℚ
  p95 : Option ℚ
  iqr : Option ℚ
  pct_within_1sd : Option ℚ
  pct_within_whiskers : Option ℚ
deriving DecidableEq

/-- Lines 429-430: `np.unique(lab_data)` with id 0 removed — the
distinct non-zero ids of the label volume in ascending order. -/
def roi_ids_present (lab_data : List ℕ) : List ℕ :=
  (uniqueSorted lab_data).filter (fun i => i != 0)

/-- One row of the report (lines 450-480): resolve the name, then merge
with the stats record via `stats_map.get(roi_id, {})`; an id absent from
the map gets `n_voxels = 0` and NaN for every other statistic. -/
def make_row (id_to_name : List (ℤ × String)) (lr_offset : ℤ)
    (right_suffix left_suffix : String) (stats_map : List (ℕ × RoiStats))
    (no_minmax : Bool) (roi_id : ℕ) : ReportRow :=
  match stats_map.lookup roi_id with
  | some s =>
    { roi_id := roi_id
      roi_base_id :=
        (label_name_from_id (roi_id : ℤ) id_to_name lr_offset right_suffix left_suffix).1
      hemisphere :=
        (label_name_from_id (roi_id : ℤ) id_to_name lr_offset right_suffix left_suffix).2.1
      roi_name :=
        (label_name_from_id (roi_id : ℤ) id_to_name lr_offset right_suffix left_suffix).2.2
      n_voxels := some s.n_voxels
      mean := some s.mean
      var := some s.var
      min := if no_minmax then none else s.min
      max := if no_minmax then none else s.max
      p05 := some s.p05
      q1 := some s.q1
      median := some s.median
      q3 := some s.q3
      p95 := some s.p95
      iqr := some s.iqr
      pct_within_1sd := s.pct_within_1sd
      pct_within_whiskers := s.pct_within_whiskers }
  | none =>
    { roi_id := roi_id
      roi_base_id :=
        (label_name_from_id (roi_id : ℤ) id_to_name lr_offset right_suffix left_suffix).1
      hemisphere :=
        (label_name_from_id (roi_id : ℤ) id_to_name lr_offset right_suffix left_suffix).2.1
      roi_name :=
        (label_name_from_id (roi_id : ℤ) id_to_name lr_offset right_suffix left_suffix).2.2
      n_voxels := some 0
      mean := none
      var := none
      min := none
      max := none
      p05 := none
      q1 := none
      median := none
      q3 := none
      p95 := none
      iqr := none
      pct_within_1sd := none
      pct_within_whiskers := none }

/-- The report of one (group, modality) pair: one row per distinct
non-zero label-volume id, in the `roi_ids_present` order. -/
def assemble_rows (lab_data : List ℕ) (stats_map : List (ℕ × RoiStats))
    (no_minmax : Bool) (id_to_name : List (ℤ × String)) (lr_offset : ℤ)
    (right_suffix left_suffix : String) : List ReportRow :=
  (roi_ids_present lab_data).map
    (make_row id_to_name lr_offset right_suffix left_suffix stats_map no_minmax)

theorem make_row_roi_id (id_to_name : List (ℤ × String)) (lr_offset : ℤ)
    (right_suffix left_suffix : String) (stats_map : List (ℕ × RoiStats))
    (no_minmax : Bool) (roi_id : ℕ) :
    (make_row id_to_name lr_offset right_suffix left_suffix stats_map no_minmax
      roi_id).roi_id = roi_id := by
  unfold make_row
  cases stats_map.lookup roi_id <;> rfl

theorem roi_ids_present_sorted (lab_data : List ℕ) :
    (roi_ids_present lab_data).Sorted (· < ·) := by
  unfold roi_ids_present uniqueSorted
  have hle : (List.insertionSort (· ≤ ·) lab_data.dedup).Sorted (· ≤ ·) :=
    List.sorted_insertionSort _ _
  have hnd : (List.insertionSort (· ≤ ·) lab_data.dedup).Nodup :=
    ((List.perm_insertionSort (· ≤ ·) lab_data.dedup).nodup_iff).mpr (List.nodup_dedup _)
  exact (hle.lt_of_le hnd).filter _

theorem mem_roi_ids_present (lab_data : List ℕ) (i : ℕ) :
    i ∈ roi_ids_present lab_data ↔ (i ∈ lab_data ∧ i ≠ 0) := by
  unfold roi_ids_present uniqueSorted
  rw [List.mem_filter, List.mem_insertionSort, List.mem_dedup]
  simp

/-- C5 counterexample: the claim says an id with zero qualifying voxels
gets the not-available sentinel in every statistics field of its row,
but the `n_voxels` cell is the number 0, not the sentinel. -/
theorem c5_counterexample :
    (assemble_rows [5] (compute_stats_fast [(5, FVal.nan)] false false) true [] 2000
        "_R" "_L").map (fun row => (row.roi_id, row.n_voxels))
      = [(5, some 0)]
    ∧ compute_stats_fast [(5, FVal.nan)] false false = [] := by
  constructor
  · decide
  · decide

/-- C5 (amended): the assembled report has exactly one row per distinct
non-zero id of the label volume, in ascending numeric order, and for an
id absent from the stats map every statistics field except the voxel
count is the not-available sentinel, while `n_voxels` is the number 0. -/
theorem c5_amended_rows (lab_data : List ℕ) (stats_map : List (ℕ × RoiStats))
    (no_minmax : Bool) (id_to_name : List (ℤ × String)) (lr_offset : ℤ)
    (right_suffix left_suffix : String) :
    ((assemble_rows lab_data stats_map no_minmax id_to_name lr_offset right_suffix
          left_suffix).map (fun row => row.roi_id)
        = roi_ids_present lab_data)
      ∧ (roi_ids_present lab_data).Sorted (· < ·)
      ∧ (∀ i, i ∈ roi_ids_present lab_data ↔ (i ∈ lab_data ∧ i ≠ 0))
      ∧ (∀ row ∈ assemble_rows lab_data stats_map no_minmax id_to_name lr_offset
            right_suffix left_suffix,
          stats_map.lookup row.roi_id = none
            → row.n_voxels = some 0 ∧ row.mean = none ∧ row.var = none
              ∧ row.min = none ∧ row.max = none ∧ row.p05 = none ∧ row.q1 = none
              ∧ row.median = none ∧ row.q3 = none ∧ row.p95 = none ∧ row.iqr = none
              ∧ row.pct_within_1sd = none ∧ row.pct_within_whiskers = none) := by
  refine ⟨?_, roi_ids_present_sorted _, mem_roi_ids_present _, ?_⟩
  · unfold assemble_rows
    rw [List.map_map]
    have hcomp : ((fun row => row.roi_id)
        ∘ make_row id_to_name lr_offset right_suffix left_suffix stats_map no_minmax)
        = fun i => i := by
      funext i
      simp [Function.comp, make_row_roi_id]
    rw [hcomp]
    exact List.map_id _
  · intro row hrow hnone
    rcases List.mem_map.mp hrow with ⟨i, hi, hrw⟩
    have hid : row.roi_id = i := by
      rw [← hrw]
      exact make_row_roi_id _ _ _ _ _ _ _
    rw [hid] at hnone
    rw [← hrw]
    simp [make_row, hnone]

/-! ### The per-pair loop of `main` (lines 434-447) -/

/-- One discovered (group, modality) pair together with the shape of its
value volume. -/
structure PairT where
  group : String
  modality : String
  shape : List ℕ
deriving DecidableEq

/-- The `for group, modality, tpl_path in template_list` loop of `main`:
each pair whose template shape matches the label shape is processed (its
output table is emitted); a mismatching pair raises `ValueError`
(line 438), which is uncaught and terminates the loop — nothing after it
runs.  Returns the emitted (group, modality) outputs and whether the run
aborted with the error. -/
def runPairs (labShape : List ℕ) : List PairT → List (String × String) × Bool
  | [] => ([], false)
  | p :: rest =>
    if p.shape = labShape then
      ((p.group, p.modality) :: (runPairs labShape rest).1, (runPairs labShape rest).2)
    else ([], true)

/-- C2 counterexample: with a mismatched second pair, the third pair is
never processed (its output is absent), refuting "every remaining pair
in the list is still processed to completion". -/
theorem c2_counterexample :
    runPairs [2, 2, 2]
        [⟨"g1", "T1map", [2, 2, 2]⟩, ⟨"g2", "T1map", [3, 3, 3]⟩,
          ⟨"g3", "T1map", [2, 2, 2]⟩]
      = ([("g1", "T1map")], true)
    ∧ ("g3", "T1map") ∉ (runPairs [2, 2, 2]
        [⟨"g1", "T1map", [2, 2, 2]⟩, ⟨"g2", "T1map", [3, 3, 3]⟩,
          ⟨"g3", "T1map", [2, 2, 2]⟩]).1 := by
  constructor
  · rfl
  · decide

/-- C2 (amended): a shape mismatch raises an uncaught error that aborts
the entire run — the pairs before the first mismatched one are
processed, and neither the mismatched pair nor any pair after it is. -/
theorem c2_amended_abort (labShape : List ℕ) (pre : List PairT) (bad : PairT)
    (post : List PairT) (hpre : ∀ p ∈ pre, p.shape = labShape)
    (hbad : bad.shape ≠ labShape) :
    runPairs labShape (pre ++ bad :: post)
      = (pre.map (fun p => (p.group, p.modality)), true) := by
  induction pre with
  | nil =>
    simp only [List.nil_append, List.map_nil]
    unfold runPairs
    rw [if_neg hbad]
  | cons a t ih =>
    have ha : a.shape = labShape := hpre a (List.mem_cons_self _ _)
    have ht : ∀ p ∈ t, p.shape = labShape := fun p hp => hpre p (List.mem_cons_of_mem _ hp)
    simp only [List.cons_append, List.map_cons]
    unfold runPairs
    rw [if_pos ha, ih ht]

/-! ### Template discovery (`discover_templates`, lines 63-87) -/

/-- One group directory under `.../<modality>/To_Template/`: its name,
whether it has a `template` subdirectory, and the file names inside that
subdirectory. -/
structure GroupDir where
  name : String
  hasTplDir : Bool
  files : List String
deriving DecidableEq

/-- `s.endswith(suf)`, on the character list. -/
def strEndsWith (s suf : String) : Bool := suf.data.isSuffixOf s.data

/-- A file name matching `pathlib`'s `tpl_dir.glob("*_template.nii.gz")`
(line 84): any name ending in the suffix — `pathlib.Path.glob` matches
names with a leading dot as well. -/
def matchesGlobTpl (f : String) : Bool :=
  strEndsWith f "_template.nii.gz"

/-- Lines 76-86: within one group, prefer the canonical
`<group>_<modality>_template.nii.gz` name; otherwise the first entry of
the sorted glob hits; otherwise nothing. -/
def pick_template (g : GroupDir) (m : String) : Option String :=
  if !g.hasTplDir then none
  else if (g.name ++ "_" ++ m ++ "_template.nii.gz") ∈ g.files then
    some (g.name ++ "_" ++ m ++ "_template.nii.gz")
  else
    match List.insertionSort (· ≤ ·) (g.files.filter matchesGlobTpl) with
    | [] => none
    | f :: _ => some f

/-- `discover_templates` over a modelled directory tree: `fs` maps a
modality (whose `To_Template` base directory exists) to its group
directories.  Groups are visited in sorted name order
(`sorted(base.glob("*")...)`, line 74 — `pathlib` glob includes
dot-directories), and each group contributes its picked template, if
any. -/
def discover_templates (fs : List (String × List GroupDir))
    (modalities : List String) : List (String × String × String) :=
  (modalities.map (fun m =>
    match List.lookup m fs with
    | none => []
    | some gds =>
      (List.insertionSort (fun a b : GroupDir => a.name ≤ b.name) gds).filterMap
        (fun g => (pick_template g m).map (fun f => (g.name, m, f))))).flatten

theorem insertionSort_head_least {l : List String} {f : String} {rest : List String}
    (h : List.insertionSort (· ≤ ·) l = f :: rest) :
    f ∈ l ∧ ∀ f' ∈ l, f ≤ f' := by
  have hs := List.sorted_insertionSort (· ≤ ·) l
  rw [h] at hs
  have hperm := List.perm_insertionSort (· ≤ ·) l
  rw [h] at hperm
  constructor
  · exact hperm.subset (List.mem_cons_self _ _)
  · intro f' hf'
    have hmem : f' ∈ f :: rest := hperm.symm.subset hf'
    rcases List.mem_cons.mp hmem with h1 | h2
    · exact le_of_eq h1.symm
    · exact (List.sorted_cons.mp hs).1 f' h2

/-- C9: template discovery picks the canonical
`<group>_<modality>_template.nii.gz` when present, otherwise the
lexicographically first file matching `*_template.nii.gz`, skips the
(group, modality) pair when neither exists (or the template subdirectory
is missing), and yields the empty list — not an error — when nothing
matches anywhere. -/
theorem c9_discovery (fs : List (String × List GroupDir)) (modalities : List String)
    (m : String) (g : GroupDir) :
    (g.hasTplDir = true → (g.name ++ "_" ++ m ++ "_template.nii.gz") ∈ g.files
        → pick_template g m = some (g.name ++ "_" ++ m ++ "_template.nii.gz"))
      ∧ (g.hasTplDir = true → (g.name ++ "_" ++ m ++ "_template.nii.gz") ∉ g.files
          → ∀ f, pick_template g m = some f
            → f ∈ g.files ∧ matchesGlobTpl f = true
              ∧ ∀ f' ∈ g.files, matchesGlobTpl f' = true → f ≤ f')
      ∧ (g.hasTplDir = true → (g.name ++ "_" ++ m ++ "_template.nii.gz") ∉ g.files
          → (∃ f ∈ g.files, matchesGlobTpl f = true)
            → ∃ f, pick_template g m = some f)
      ∧ ((g.hasTplDir = false ∨ (g.name ++ "_" ++ m ++ "_template.nii.gz") ∉ g.files
            ∧ (∀ f ∈ g.files, matchesGlobTpl f = false))
          → pick_template g m = none)
      ∧ ((∀ m' ∈ modalities, ∀ gds, List.lookup m' fs = some gds
            → ∀ g' ∈ gds, pick_template g' m' = none)
          → discover_templates fs modalities = [])
      ∧ (∀ gds f, m ∈ modalities → List.lookup m fs = some gds → g ∈ gds
          → pick_template g m = some f
          → (g.name, m, f) ∈ discover_templates fs modalities) := by
  refine ⟨?_, ?_, ?_, ?_, ?_, ?_⟩
  · intro hdir hmem
    simp [pick_template, hdir, hmem]
  · intro hdir hnmem f hpick
    simp only [pick_template, hdir, Bool.not_true, Bool.false_eq_true, if_false,
      if_neg hnmem] at hpick
    cases hsort : List.insertionSort (· ≤ ·) (g.files.filter matchesGlobTpl) with
    | nil =>
      rw [hsort] at hpick
      simp at hpick
    | cons h0 t0 =>
      rw [hsort] at hpick
      simp only [Option.some.injEq] at hpick
      subst hpick
      rcases insertionSort_head_least hsort with ⟨hmem, hleast⟩
      rcases List.mem_filter.mp hmem with ⟨hin, hmat⟩
      refine ⟨hin, hmat, ?_⟩
      intro f' hf' hmat'
      exact hleast f' (List.mem_filter.mpr ⟨hf', hmat'⟩)
  · intro hdir hnmem hex
    simp only [pick_template, hdir, Bool.not_true, Bool.false_eq_true, if_false,
      if_neg hnmem]
    rcases hex with ⟨f, hf, hmat⟩
    cases hsort : List.insertionSort (· ≤ ·) (g.files.filter matchesGlobTpl) with
    | nil =>
      exfalso
      have : f ∈ List.insertionSort (· ≤ ·) (g.files.filter matchesGlobTpl) :=
        (List.mem_insertionSort _).mpr (List.mem_filter.mpr ⟨hf, hmat⟩)
      rw [hsort] at this
      simp at this
    | cons h0 t0 => exact ⟨h0, rfl⟩
  · intro hcase
    rcases hcase with hdir | ⟨hnmem, hnone⟩
    · simp [pick_template, hdir]
    · have hfilt : g.files.filter matchesGlobTpl = [] := by
        rw [List.filter_eq_nil_iff]
        intro a ha
        simp [hnone a ha]
      by_cases hdir : g.hasTplDir
      · simp [pick_template, hdir, if_neg hnmem, hfilt]
      · simp [pick_template, hdir]
  · intro hall
    unfold discover_templates
    rw [List.flatten_eq_nil_iff]
    intro sub hsub
    rcases List.mem_map.mp hsub with ⟨m', hm', heq⟩
    subst heq
    cases hlk : List.lookup m' fs with
    | none => rfl
    | some gds =>
      rw [List.filterMap_eq_nil_iff]
      intro g' hg'
      have hg'' : g' ∈ gds := (List.mem_insertionSort _).mp hg'
      rw [hall m' hm' gds hlk g' hg'']
      rfl
  · intro gds f hm hlk hg hpick
    unfold discover_templates
    rw [List.mem_flatten]
    refine ⟨_, List.mem_map.mpr ⟨m, hm, rfl⟩, ?_⟩
    rw [hlk]
    apply List.mem_filterMap.mpr
    refine ⟨g, ?_, by rw [hpick]; rfl⟩
    exact (List.mem_insertionSort _).mpr hg

/-! ### ROI-id selection for per-ROI plots (`parse_roi_ids`, lines
220-238, and the plotting block of `main`, lines 493-517)

Python's `str.strip`, `str.lower`, `str.split(",")` and `int(...)` are
modelled directly on the character list of the string (for the ASCII
arguments this CLI deals in). -/

/-- `str.lower()`. -/
def strLower (s : String) : String := ⟨s.data.map Char.toLower⟩

/-- `str.strip()`. -/
def strTrim (s : String) : String :=
  ⟨((s.data.dropWhile Char.isWhitespace).reverse.dropWhile Char.isWhitespace).reverse⟩

/-- `s.split(",")`. -/
def splitComma (s : String) : List String :=
  splitCommaAux s.data []
where
  splitCommaAux : List Char → List Char → List String
    | [], acc => [⟨acc.reverse⟩]
    | c :: cs, acc =>
      if c = ',' then ⟨acc.reverse⟩ :: splitCommaAux cs []
      else splitCommaAux cs (c :: acc)

/-- A nonempty all-digit character run, as a number. -/
def digitsToNat : List Char → Option ℕ
  | [] => none
  | cs =>
    cs.foldl (fun acc c =>
      match acc with
      | none => none
      | some n => if c.isDigit then some (n * 10 + (c.toNat - 48)) else none) (some 0)

/-- Python `int(tok)` on an integer literal: optional sign, then
digits; anything else raises `ValueError`. -/
def parseIntTok (t : String) : Option ℤ :=
  match t.data with
  | '-' :: rest => (digitsToNat rest).map (fun n => -(n : ℤ))
  | '+' :: rest => (digitsToNat rest).map (fun n => (n : ℤ))
  | cs => (digitsToNat cs).map (fun n => (n : ℤ))

/-- The token loop of lines 232-237: empty tokens are skipped, others
are parsed with `int(tok)`, which raises on a non-integer token. -/
def parse_tokens : List String → Except String (List ℤ)
  | [] => Except.ok []
  | t :: ts =>
    if t = "" then parse_tokens ts
    else
      match parseIntTok t with
      | some i => (parse_tokens ts).map (fun rest => i :: rest)
      | none => Except.error ("invalid literal for int: " ++ t)

/-- `parse_roi_ids` (lines 220-238): `""` means no selection (`None`),
`"all"` means all present ids (`[]`), otherwise a comma list. -/
def parse_roi_ids (arg : String) : Except String (Option (List ℤ)) :=
  if strLower (strTrim arg) = "" then Except.ok none
  else if strLower (strTrim arg) = "all" then Except.ok (some [])
  else (parse_tokens ((splitComma (strLower (strTrim arg))).map strTrim)).map
    (fun out => some out)

/-- Lines 494-503 of `main`: with no selection (`None`) the pair is
skipped entirely; `[]` selects every present id; an explicit list
selects those ids; a positive cap truncates. -/
def roi_ids_to_plot (req : Option (List ℤ)) (present : List ℤ) (cap : ℤ) : List ℤ :=
  match req with
  | none => []
  | some sel =>
    if 0 < cap then (if sel = [] then present else sel).take cap.toNat
    else (if sel = [] then present else sel)

/-- Lines 505-517: the loop additionally skips id 0 and ids with no
qualifying voxels; `has_vals` abstracts the per-id voxel check. -/
def plotted_ids (req : Option (List ℤ)) (present : List ℤ) (cap : ℤ)
    (has_vals : ℤ → Bool) : List ℤ :=
  (roi_ids_to_plot req present cap).filter (fun id => id != 0 && has_vals id)

/-- C10: with per-ROI plotting enabled but the ROI-id argument left at
its default `""`, `parse_roi_ids` returns the no-selection value and no
ROI is plotted for any (group, modality) pair; the explicit `"all"`
selection is what yields every present ROI. -/
theorem c10_default_no_plots :
    parse_roi_ids "" = Except.ok none
      ∧ (∀ present cap has_vals, plotted_ids none present cap has_vals = [])
      ∧ parse_roi_ids "all" = Except.ok (some [])
      ∧ (∀ present : List ℤ, roi_ids_to_plot (some []) present 0 = present) := by
  refine ⟨rfl, ?_, rfl, ?_⟩
  · intro present cap has_vals
    simp [plotted_ids, roi_ids_to_plot]
  · intro present
    simp [roi_ids_to_plot]

/-! ### Concrete witnesses

The core arithmetic of `ℚ` is `@[irreducible]` in core Lean, which only
blocks elaborator-side reduction; making it semireducible locally lets
`decide` evaluate the model on concrete inputs. -/

section ConcreteWitnesses

attribute [local semireducible] Rat.mul Rat.add Rat.sub Rat.inv

theorem c1_witness :
    0 < roiCount (survivors false [(0, FVal.fin 1)]) 0
      ∧ ∃ r, (0, r) ∈ compute_stats_fast [(0, FVal.fin 1)] false true :=
  ⟨by decide,
    ((c1_amended_keys [(0, FVal.fin 1)] false true 0).1).mpr (by decide)⟩

theorem c2_witness :
    runPairs [2] ([⟨"a", "T1map", [2]⟩] ++ ⟨"b", "T1map", [3]⟩ :: [⟨"c", "T1map", [2]⟩])
      = ([("a", "T1map")], true) :=
  c2_amended_abort [2] [⟨"a", "T1map", [2]⟩] ⟨"b", "T1map", [3]⟩ [⟨"c", "T1map", [2]⟩]
    (by decide) (by decide)

theorem c3_witness :
    compute_stats_fast [(3, FVal.nan), (4, FVal.fin (-2))] false true = [] :=
  (c3_mask_and_empty [(3, FVal.nan), (4, FVal.fin (-2))] false true).2.2 (by decide)

theorem c4_witness :
    label_name_from_id 0 [(5, "Thalamus")] 2000 "_R" "_L" = (0, "", "Background")
      ∧ label_name_from_id 2005 [(5, "Thalamus")] 2000 "_R" "_L"
          = (5, "L", "Thalamus_L")
      ∧ label_name_from_id 5 [(5, "Thalamus")] 2000 "_R" "_L"
          = (5, "R", "Thalamus_R") := by
  refine ⟨(c4_label_resolver 0 [(5, "Thalamus")] 2000 "_R" "_L").1 rfl, ?_, ?_⟩
  · have h := (c4_label_resolver 2005 [(5, "Thalamus")] 2000 "_R" "_L").2.1
      (by decide) (by decide) (by decide)
    rw [h]
    decide
  · have h := (c4_label_resolver 5 [(5, "Thalamus")] 2000 "_R" "_L").2.2.1
      (by decide) (by decide)
    rw [h]
    decide

theorem c5_witness :
    ((assemble_rows [0, 5] [] true [] 2000 "_R" "_L").map (fun row => row.roi_id)
        = roi_ids_present [0, 5])
      ∧ (make_row [] 2000 "_R" "_L" [] true 5).n_voxels = some 0
      ∧ (make_row [] 2000 "_R" "_L" [] true 5).mean = none := by
  refine ⟨(c5_amended_rows [0, 5] [] true [] 2000 "_R" "_L").1, ?_, ?_⟩
  · exact ((c5_amended_rows [0, 5] [] true [] 2000 "_R" "_L").2.2.2
      (make_row [] 2000 "_R" "_L" [] true 5) (by decide) (by decide)).1
  · exact ((c5_amended_rows [0, 5] [] true [] 2000 "_R" "_L").2.2.2
      (make_row [] 2000 "_R" "_L" [] true 5) (by decide) (by decide)).2.1

theorem c6_witness :
    (statsFor (survivors false [(7, FVal.fin 1), (7, FVal.fin 3)]) true 7).q1
      ≤ (statsFor (survivors false [(7, FVal.fin 1), (7, FVal.fin 3)]) true 7).median :=
  (c6_quantile_order [(7, FVal.fin 1), (7, FVal.fin 3)] false true 7 _ (by decide)).1

theorem c7_witness :
    ∃ p, (statsFor (survivors false [(7, FVal.fin 1), (7, FVal.fin 3)]) true
        7).pct_within_1sd = some p ∧ 0 ≤ p ∧ p ≤ 100 :=
  (c7_pct_bounds [(7, FVal.fin 1), (7, FVal.fin 3)] false true 7 _ (by decide)).1

theorem c8_witness :
    0 ≤ (statsFor (survivors false [(7, FVal.fin 1), (7, FVal.fin 3)]) true 7).var :=
  (c8_mean_var [(7, FVal.fin 1), (7, FVal.fin 3)] false true 7 _ (by decide)).2.2.1

theorem c9_witness :
    pick_template ⟨"S01", true, ["S01_T1map_template.nii.gz"]⟩ "T1map"
        = some "S01_T1map_template.nii.gz"
      ∧ ("S01", "T1map", "S01_T1map_template.nii.gz")
          ∈ discover_templates
              [("T1map", [⟨"S01", true, ["S01_T1map_template.nii.gz"]⟩])] ["T1map"]
      ∧ ∃ f, pick_template ⟨"S03", true, [".hidden_template.nii.gz"]⟩ "T1map" = some f := by
  refine ⟨(c9_discovery [("T1map", [⟨"S01", true, ["S01_T1map_template.nii.gz"]⟩])]
    ["T1map"] "T1map" ⟨"S01", true, ["S01_T1map_template.nii.gz"]⟩).1 rfl (by decide),
    ?_, ?_⟩
  · exact (c9_discovery [("T1map", [⟨"S01", true, ["S01_T1map_template.nii.gz"]⟩])]
        ["T1map"] "T1map" ⟨"S01", true, ["S01_T1map_template.nii.gz"]⟩).2.2.2.2.2
      [⟨"S01", true, ["S01_T1map_template.nii.gz"]⟩] "S01_T1map_template.nii.gz"
      (by decide) (by decide) (by decide) (by decide)
  · exact (c9_discovery [] [] "T1map" ⟨"S03", true, [".hidden_template.nii.gz"]⟩).2.2.1
      rfl (by decide) ⟨".hidden_template.nii.gz", by decide, by decide⟩

end ConcreteWitnesses
